import Mathlib

/-!
# Dynamic Relation Resolution Engine — verification development

Shallow embedding of the engine at the heart of the `api-go` repository:
the batch related-row loader, the row materializer (two-pass relation
resolution in the public page routes), the pivot-naming resolver, the
identifier sanitizer and the dynamic mutation layer
(`InsertDynamic` / `UpdateDynamic` / `InsertPivotM2M` / `ClearPivot`).

Modelling conventions:
* Untyped Go scalar values (`any`) are a closed tagged variant `Value`
  (null / string / int / bool); `sprintf_v` is Go's `fmt.Sprintf("%v", ·)`
  on that variant (`nil` prints `<nil>`).
* Go maps are association lists; `mapInsert` has Go's assignment
  semantics (overwrite the existing binding, else append), `lookupMap`
  reads the binding.  Iteration order of a Go map is not specified, so
  a map handed to a loop is modelled as a list of its bindings.
* A SQL round trip is modelled up to the issued query: an `IssuedQuery`
  records the generated query text together with the bound arguments.
  The database itself is a function from (table, bound id arguments) to
  either an error (`none`) or a result set (column list + positional
  rows), exactly the data `database/sql` hands back to the engine.
-/

/-- Closed variant of the untyped scalar values flowing through raw rows. -/
inductive Value where
  | vnull
  | vstr (s : String)
  | vint (n : Int)
  | vbool (b : Bool)
deriving DecidableEq, Repr

/-- Go's `fmt.Sprintf("%v", x)` on a scalar value (a `nil` interface
prints `<nil>`, strings print verbatim, ints in decimal, bools as
`true` / `false`). -/
def sprintf_v : Value → String
  | .vnull => "<nil>"
  | .vstr s => s
  | .vint n => toString n
  | .vbool b => if b then "true" else "false"

/-- A raw row: Go's `map[string]any` from column name to scalar value. -/
abbrev RawRow := List (String × Value)

/-- Association-list read, i.e. a Go map lookup. -/
def lookupMap {α : Type} : List (String × α) → String → Option α
  | [], _ => none
  | (k', v) :: rest, k => if k' == k then some v else lookupMap rest k

/-- Association-list write with Go map assignment semantics: replace the
existing binding for the key in place, otherwise append a new binding. -/
def mapInsert {α : Type} : List (String × α) → String → α → List (String × α)
  | [], k, v => [(k, v)]
  | (k', v') :: rest, k, v =>
    if k' == k then (k', v) :: rest else (k', v') :: mapInsert rest k v

/-- `quoteIdent` (src/routes/page.go): double every embedded `"` and wrap
the identifier in double quotes. -/
def quoteIdent (ident : String) : String :=
  "\"" ++ String.mk (ident.data.foldr
    (fun c acc => if c == '"' then '"' :: '"' :: acc else c :: acc) []) ++ "\""

/-- `RelationDefinition` (src/routes/page.go).  The Go field `Type` is
renamed `Type'` because `Type` is a Lean keyword. -/
structure RelationDefinition where
  Type' : String
  FromColumn : String
  ToTable : String
  OnDelete : String
  PivotTable : String
deriving DecidableEq, Repr

/-- Go's `strings.ToLower` restricted to the ASCII identifiers the
engine handles: lower-case every character. -/
def toLowerStr (s : String) : String :=
  String.mk (s.data.map Char.toLower)

/-- `pivotTableName` (src/routes/page.go): the explicit `PivotTable` when
set, otherwise `strings.ToLower(fmt.Sprintf("%s_%s_%s", pageTable,
rel.FromColumn, rel.ToTable))`. -/
def pivotTableName (pageTable : String) (rel : RelationDefinition) : String :=
  if rel.PivotTable != "" then rel.PivotTable
  else toLowerStr (pageTable ++ "_" ++ rel.FromColumn ++ "_" ++ rel.ToTable)

/-- A query as dispatched to `database/sql`: generated text plus bound
arguments (string arguments, as the engine binds ids as strings). -/
structure IssuedQuery where
  text : String
  args : List String
deriving DecidableEq, Repr

/-- A query with arbitrary scalar bound arguments (mutation layer). -/
structure IssuedQ where
  text : String
  args : List Value
deriving DecidableEq, Repr

/-!  ## Dynamic mutation layer (src/unnamed/part_003, package routes)

Each operation is modelled up to the queries it hands to `database/sql`:
the result is `Except` the error the function itself produces, carrying
the list of issued queries.  Database execution errors are external to
the model.  A Go map of fields is a list of its bindings. -/

/-- `InsertDynamic`: empty payload is a caller error (`"aucune donnée à
insérer"`, no SQL issued); otherwise one parameterized
`INSERT ... RETURNING id` whose text names only the table/columns and
whose bound arguments are the values. -/
def InsertDynamic (table : String) (fields : List (String × Value)) :
    Except String (List IssuedQ) :=
  if fields.isEmpty then .error "aucune donnée à insérer"
  else
    let cols := fields.map (fun f => quoteIdent f.1)
    let params := (List.range fields.length).map (fun i => "$" ++ toString (i + 1))
    let args := fields.map Prod.snd
    .ok [⟨"INSERT INTO " ++ quoteIdent table ++ " (" ++ String.intercalate ", " cols
          ++ ") VALUES (" ++ String.intercalate ", " params ++ ") RETURNING id", args⟩]

/-- `UpdateDynamic`: an empty partial update is a success with no SQL;
otherwise one parameterized `UPDATE ... SET ... WHERE id = $n+1`, the id
bound as the last argument. -/
def UpdateDynamic (table id : String) (fields : List (String × Value)) :
    Except String (List IssuedQ) :=
  if fields.isEmpty then .ok []
  else
    let sets := fields.enum.map
      (fun p => quoteIdent p.2.1 ++ " = $" ++ toString (p.1 + 1))
    let args := fields.map Prod.snd ++ [Value.vstr id]
    .ok [⟨"UPDATE " ++ quoteIdent table ++ " SET " ++ String.intercalate ", " sets
          ++ " WHERE id = $" ++ toString (fields.length + 1), args⟩]

/-- The (constant) text of the pivot-edge insert in `InsertPivotM2M`. -/
def insertPivotQueryText (pivotTable : String) : String :=
  "INSERT INTO " ++ quoteIdent pivotTable ++ " (left_id, right_id) VALUES ($1, $2)"

/-- The single-edge inserts `InsertPivotM2M` dispatches for a right-id
list (src/unnamed/part_003 lines 253–259): the query text is built once
before the loop and names only the pivot table; each `db.Exec` binds the
left id and one right id as the two arguments. -/
def insertPivotQueries (pivotTable leftID : String) (rightIDs : List String) :
    List IssuedQuery :=
  rightIDs.map (fun r => ⟨insertPivotQueryText pivotTable, [leftID, r]⟩)

/-- The `DELETE FROM <pivot> WHERE left_id = $1` query `ClearPivot`
dispatches (src/unnamed/part_003 lines 268–272), the left id bound as
the sole argument. -/
def clearPivotQuery (pivotTable leftID : String) : IssuedQuery :=
  ⟨"DELETE FROM " ++ quoteIdent pivotTable ++ " WHERE left_id = $1", [leftID]⟩

/-- The pivot-edge `SELECT` built in the public page list handler
(src/routes/page.go lines 142–146): the id list is string-concatenated
into the query text (`"'" + strings.Join(allIDs, "','") + "'"`), not
bound. -/
def pivotEdgeQueryText (pivot : String) (allIDs : List String) : String :=
  "SELECT left_id, right_id FROM " ++ quoteIdent pivot ++ " WHERE left_id IN ("
    ++ ("'" ++ String.intercalate "','" allIDs ++ "'") ++ ")"

/-!  ## Batch related-row loader (`batchLoadRelated`, src/routes/page.go) -/

/-- What the database hands back for one query: the column list in
ordinal position and the result rows, each a positional value list. -/
structure QueryResult where
  cols : List String
  rows : List (List Value)
deriving Repr

/-- The storage layer: table name and bound id arguments to either an
execution error (`none`) or a result set. -/
abbrev DB := String → List String → Option QueryResult

/-- The `SELECT * FROM <table> WHERE id IN ($1,...,$n)` query built by
`batchLoadRelated`: placeholders in the text, ids as bound arguments. -/
def mkBatchQuery (table : String) (ids : List String) : IssuedQuery :=
  ⟨"SELECT * FROM " ++ quoteIdent table ++ " WHERE id IN ("
    ++ String.intercalate "," ((List.range ids.length).map (fun i => "$" ++ toString (i + 1)))
    ++ ")", ids⟩

/-- The per-row scan loop of `batchLoadRelated`: pair each column with
its scanned value, build the row map, and remember the stringified value
of the last non-null `id` column (`idVal`).  The loop keeps the row only
when `idVal` is non-empty, keyed `<table>:<idVal>`. -/
def rowIdVal (pairs : List (String × Value)) : String :=
  pairs.foldl (fun acc cv => if cv.1 == "id" && cv.2 != Value.vnull
                             then sprintf_v cv.2 else acc) ""

/-- Scan one returned row (`batchLoadRelated` inner loop): returns the
cache binding `(<table>:<id>, row)` or `none` when the row is dropped
because its id is null, absent, or stringifies to the empty string. -/
def scanOne (table : String) (cols : List String) (vals : List Value) :
    Option (String × RawRow) :=
  let pairs := cols.zip vals
  let row := pairs.foldl (fun r cv => mapInsert r cv.1 cv.2) []
  let idVal := rowIdVal pairs
  if idVal == "" then none else some (table ++ ":" ++ idVal, row)

/-- Rows contributed to the cache by one target table: none on a query
error (the table is skipped silently), otherwise every scanned row that
survives `scanOne`. -/
def tableEntries (db : DB) (t : String) (ids : List String) : List (String × RawRow) :=
  match db t ids with
  | none => []
  | some res => res.rows.filterMap (fun vals => scanOne t res.cols vals)

/-- All cache bindings produced by walking the demand map in order;
tables with an empty id set are skipped before any query. -/
def loadEntries (db : DB) : List (String × List String) → List (String × RawRow)
  | [] => []
  | (t, ids) :: rest =>
    (if ids.isEmpty then [] else tableEntries db t ids) ++ loadEntries db rest

/-- The queries `batchLoadRelated` dispatches: one `IN` query per demand
entry with a non-empty id set (issued even when it then errors), none
for an empty id set.  The trace does not depend on the database. -/
def loadQueries : List (String × List String) → List IssuedQuery
  | [] => []
  | (t, ids) :: rest =>
    (if ids.isEmpty then [] else [mkBatchQuery t ids]) ++ loadQueries rest

/-- Fold the bindings into the Go cache map (later bindings overwrite). -/
def buildCache (entries : List (String × RawRow)) : List (String × RawRow) :=
  entries.foldl (fun c e => mapInsert c e.1 e.2) []

/-- `batchLoadRelated` (src/routes/page.go lines 419–482): the related
object cache keyed `<table>:<id>`, together with the issued queries. -/
def batchLoadRelated (db : DB) (fk : List (String × List String)) :
    List (String × RawRow) × List IssuedQuery :=
  (buildCache (loadEntries db fk), loadQueries fk)

/-!  ## Row materializer (pass 1 and pass 2 of the public page routes) -/

/-- A materialized value: the raw scalar, a related object folded in by
pass 2, or a many-to-many list of such elements. -/
inductive MValue where
  | scalar (v : Value)
  | obj (r : RawRow)
  | mlist (xs : List MValue)

/-- A row under materialization (`map[string]any` holding scalars,
objects and lists). -/
abbrev MRow := List (String × MValue)

mutual

/-- Structural equality on materialized values (models Go interface
comparison of the values the engine stores). -/
def MValue.beq : MValue → MValue → Bool
  | .scalar a, .scalar b => a == b
  | .obj a, .obj b => a == b
  | .mlist a, .mlist b => MValue.beqList a b
  | _, _ => false

def MValue.beqList : List MValue → List MValue → Bool
  | [], [] => true
  | a :: as, b :: bs => MValue.beq a b && MValue.beqList as bs
  | _, _ => false

end

instance : BEq MValue := ⟨MValue.beq⟩

mutual

/-- Go's `fmt.Sprintf("%v", ·)` on a materialized value.  Scalars print
exactly as `fmt` does; composite values print in Go's `map[...]` /
`[...]` shape (the engine only ever feeds the printed form of a
composite back into a lookup key, where only its non-emptiness and
non-collision with plain ids matter). -/
def sprintfM : MValue → String
  | .scalar v => sprintf_v v
  | .obj r => "map[" ++ String.intercalate " "
      (r.map (fun kv => kv.1 ++ ":" ++ sprintf_v kv.2)) ++ "]"
  | .mlist xs => "[" ++ String.intercalate " " (sprintfMList xs) ++ "]"

def sprintfMList : List MValue → List String
  | [] => []
  | x :: xs => sprintfM x :: sprintfMList xs

end

/-- `fmt.Sprintf("%v", entry["id"])`: a missing map key reads as a `nil`
interface, which prints `<nil>`. -/
def entryIdStr (entry : MRow) : String :=
  match lookupMap entry "id" with
  | some v => sprintfM v
  | none => "<nil>"

/-- The relation kinds resolved through a scalar foreign key. -/
def isScalarKind (rel : RelationDefinition) : Bool :=
  rel.Type' == "one-to-one" || rel.Type' == "one-to-many"

/-- Pass-1 demand map: target table to the set of requested ids,
insertion-ordered and duplicate-free (a Go `map[string]map[string]struct{}`). -/
def addFK (m : List (String × List String)) (t i : String) :
    List (String × List String) :=
  match m with
  | [] => [(t, [i])]
  | (t', ids) :: rest =>
    if t' == t then (t', if ids.contains i then ids else ids ++ [i]) :: rest
    else (t', ids) :: addFK rest t i

/-- Pass 1, inner loop over the rows for one scalar-kind relation
(src/routes/page.go lines 172–183): a present, non-nil foreign key whose
stringification is non-empty registers `(rel.ToTable, idStr)`. -/
def collectRow (rel : RelationDefinition) :
    List (String × List String) → List RawRow → List (String × List String)
  | m, [] => m
  | m, row :: rest =>
    let m' := match lookupMap row rel.FromColumn with
      | some v =>
        if v == Value.vnull then m
        else if sprintf_v v == "" then m
        else addFK m rel.ToTable (sprintf_v v)
      | none => m
    collectRow rel m' rest

/-- Pass 1, outer loop over the relations (one-to-one / one-to-many
demand collection). -/
def collectRels (rows : List RawRow) :
    List (String × List String) → List RelationDefinition → List (String × List String)
  | m, [] => m
  | m, rel :: rest =>
    collectRels rows (if isScalarKind rel then collectRow rel m rows else m) rest

/-- Pass-1 demand collection for the scalar-kind relations
(src/routes/page.go lines 165–184). -/
def collectFK (rels : List RelationDefinition) (rows : List RawRow) :
    List (String × List String) :=
  collectRels rows [] rels

/-- `(t, i)` is a registered demand in the demand map. -/
def demandMem (m : List (String × List String)) (t i : String) : Prop :=
  ∃ ids, (t, ids) ∈ m ∧ i ∈ ids

/-- Pass 2, one-to-one / one-to-many substitution for one relation on
one row (src/routes/page.go lines 213–224): replace the scalar with the
cached object when the cache holds `<toTable>:<idStr>`, otherwise leave
the row untouched. -/
def pass2scalar (cache : List (String × RawRow)) (rel : RelationDefinition)
    (entry : MRow) : MRow :=
  match lookupMap entry rel.FromColumn with
  | none => entry
  | some fv =>
    if fv == MValue.scalar Value.vnull then entry
    else
      let idStr := sprintfM fv
      if idStr == "" then entry
      else
        match lookupMap cache (rel.ToTable ++ ":" ++ idStr) with
        | some obj => mapInsert entry rel.FromColumn (MValue.obj obj)
        | none => entry

/-- The right-id list the code reads for one row of one many-to-many
relation: empty when the pivot was never loaded (query error or no
source ids) or when the row has no pivot edges. -/
def rightIDsOf (pivotData : List (String × List (String × List String)))
    (pivot eid : String) : List String :=
  match lookupMap pivotData pivot with
  | none => []
  | some pairs => (lookupMap pairs eid).getD []

/-- Pass 2, many-to-many substitution for one relation on one row
(src/routes/page.go lines 226–249): always store a list at
`FromColumn` — empty without pivot edges, otherwise one element per
right-id, the cached object when resolvable, else the raw id string. -/
def pass2m2m (pageTable : String)
    (pivotData : List (String × List (String × List String)))
    (cache : List (String × RawRow)) (rel : RelationDefinition)
    (entry : MRow) : MRow :=
  let pivot := pivotTableName pageTable rel
  let entryID := entryIdStr entry
  match lookupMap pivotData pivot with
  | some pairs =>
    let rightIDs := (lookupMap pairs entryID).getD []
    if rightIDs.isEmpty then mapInsert entry rel.FromColumn (MValue.mlist [])
    else mapInsert entry rel.FromColumn (MValue.mlist (rightIDs.map (fun rid =>
      match lookupMap cache (rel.ToTable ++ ":" ++ rid) with
      | some obj => MValue.obj obj
      | none => MValue.scalar (Value.vstr rid))))
  | none => mapInsert entry rel.FromColumn (MValue.mlist [])

/-- Pass 2, the `switch rel.Type` dispatch for one relation on one row. -/
def pass2rel (pageTable : String)
    (pivotData : List (String × List (String × List String)))
    (cache : List (String × RawRow)) (entry : MRow)
    (rel : RelationDefinition) : MRow :=
  if isScalarKind rel then pass2scalar cache rel entry
  else if rel.Type' == "many-to-many" then pass2m2m pageTable pivotData cache rel entry
  else entry

/-!  ## Pivot edge store (`InsertPivotM2M` / `ClearPivot`)

The pivot tables are modelled as one store of `(pivotTable, left_id,
right_id)` rows in insertion order.  `db.Exec` of the single-edge insert
is an oracle that either appends the row or fails (uniqueness
violations, missing table, ...): the oracle may consult the current
store, mirroring a real constraint check. -/

abbrev PivotState := List (String × String × String)

/-- Outcome of executing one `INSERT INTO <pivot> (left_id, right_id)
VALUES ($1, $2)`: `none` is success, `some e` the database error. -/
abbrev PivotOracle := PivotState → String → String → String → Option String

/-- One run of `InsertPivotM2M`: final store, returned error, and how
many single-edge inserts were executed. -/
structure PivotRun where
  state : PivotState
  result : Except String Unit
  calls : Nat
deriving Repr

/-- `InsertPivotM2M` (src/unnamed/part_003 lines 248–265): insert one
`(left_id, right_id)` row per right-id, sequentially, returning the
first error with no further inserts and no rollback of the rows already
inserted. -/
def InsertPivotM2M (orac : PivotOracle) (st : PivotState)
    (pivotTable leftID : String) : List String → PivotRun
  | [] => ⟨st, .ok (), 0⟩
  | r :: rest =>
    match orac st pivotTable leftID r with
    | some e => ⟨st, .error e, 1⟩
    | none =>
      let run := InsertPivotM2M orac (st ++ [(pivotTable, leftID, r)]) pivotTable leftID rest
      ⟨run.state, run.result, run.calls + 1⟩

/-- `ClearPivot` (src/unnamed/part_003 lines 268–272): `DELETE FROM
<pivot> WHERE left_id = $1` removes every edge of that pivot table whose
left id matches. -/
def ClearPivot (st : PivotState) (pivotTable leftID : String) : PivotState :=
  st.filter (fun e => !(e.1 == pivotTable && e.2.1 == leftID))

/-- The store after `ClearPivot` then `InsertPivotM2M` for one left id. -/
def clearInsert (orac : PivotOracle) (st : PivotState)
    (pivotTable leftID : String) (rightIDs : List String) : PivotState :=
  (InsertPivotM2M orac (ClearPivot st pivotTable leftID) pivotTable leftID rightIDs).state

/-- The query texts a mutation-layer call hands to the database. -/
def queryTexts : Except String (List IssuedQ) → List String
  | .error _ => []
  | .ok qs => qs.map (fun q => q.text)

/-!  ## Association-list lemmas -/

theorem lookupMap_mapInsert_self {α : Type} (m : List (String × α)) (k : String) (v : α) :
    lookupMap (mapInsert m k v) k = some v := by
  induction m with
  | nil => simp [mapInsert, lookupMap]
  | cons hd tl ih =>
    obtain ⟨a, b⟩ := hd
    by_cases h : a = k <;> simp [mapInsert, lookupMap, h, ih]

theorem lookupMap_mapInsert_ne {α : Type} (m : List (String × α)) (k k' : String) (v : α)
    (h : k' ≠ k) : lookupMap (mapInsert m k v) k' = lookupMap m k' := by
  induction m with
  | nil => simp [mapInsert, lookupMap, Ne.symm h]
  | cons hd tl ih =>
    obtain ⟨a, b⟩ := hd
    by_cases hh : a = k
    · simp [mapInsert, lookupMap, hh, Ne.symm h]
    · by_cases hk' : a = k' <;> simp [mapInsert, lookupMap, hh, hk', ih, h]

theorem mem_mapInsert {α : Type} (m : List (String × α)) (k : String) (v : α)
    (x : String × α) (hx : x ∈ mapInsert m k v) : x ∈ m ∨ x = (k, v) := by
  induction m with
  | nil => simpa [mapInsert] using hx
  | cons hd tl ih =>
    obtain ⟨a, b⟩ := hd
    by_cases h : a = k
    · rw [mapInsert, if_pos (by simpa using h)] at hx
      rcases List.mem_cons.mp hx with h1 | h1
      · right; rw [h1, h]
      · left; exact List.mem_cons_of_mem _ h1
    · rw [mapInsert, if_neg (by simpa using h)] at hx
      rcases List.mem_cons.mp hx with h1 | h1
      · left; simp [h1]
      · rcases ih h1 with h2 | h2
        · left; exact List.mem_cons_of_mem _ h2
        · right; exact h2

theorem lookupMap_eq_some_mem {α : Type} (m : List (String × α)) (k : String) (v : α)
    (h : lookupMap m k = some v) : (k, v) ∈ m := by
  induction m with
  | nil => simp [lookupMap] at h
  | cons hd tl ih =>
    obtain ⟨a, b⟩ := hd
    by_cases hh : a = k
    · subst hh
      simp only [lookupMap, beq_self_eq_true, if_true, Option.some.injEq] at h
      rw [← h]
      exact List.mem_cons_self _ _
    · rw [lookupMap, if_neg (by simpa using hh)] at h
      exact List.mem_cons_of_mem _ (ih h)

theorem lookupMap_eq_none_of_no_key {α : Type} (m : List (String × α)) (k : String)
    (h : ∀ x ∈ m, x.1 ≠ k) : lookupMap m k = none := by
  induction m with
  | nil => rfl
  | cons hd tl ih =>
    simp only [lookupMap]
    rw [if_neg (by simpa using h hd (List.mem_cons_self _ _))]
    exact ih (fun x hx => h x (List.mem_cons_of_mem _ hx))

/-!  ## C6 — pivot naming -/

/-- C6: `pivotTableName` returns the explicit `pivotTable` verbatim when
non-empty, otherwise the lower-cased `sourceTable_sourceColumn_targetTable`
concatenation; in particular, for table `pages` and a many-to-many
relation with `fromColumn` `tags`, `toTable` `tags` and no explicit
pivot name, the pivot table is `pages_tags_tags`. -/
theorem c6_pivot_naming :
    (∀ (t : String) (rel : RelationDefinition),
      pivotTableName t rel =
        if rel.PivotTable = "" then toLowerStr (t ++ "_" ++ rel.FromColumn ++ "_" ++ rel.ToTable)
        else rel.PivotTable)
    ∧ pivotTableName "pages" ⟨"many-to-many", "tags", "tags", "", ""⟩ = "pages_tags_tags" := by
  constructor
  · intro t rel
    by_cases h : rel.PivotTable = "" <;> simp [pivotTableName, h]
  · decide

/-!  ## C7 — empty payload: insert errors, update no-ops -/

/-- C7: for every table (and id), `InsertDynamic` with an empty fields
map fails with the empty-payload error and issues no SQL, while
`UpdateDynamic` with an empty fields map returns success and issues no
SQL. -/
theorem c7_empty_payload_asymmetry (table id : String) :
    InsertDynamic table [] = .error "aucune donnée à insérer"
    ∧ UpdateDynamic table id [] = .ok [] :=
  ⟨rfl, rfl⟩

/-!  ## C2 — bound parameters vs the interpolated pivot-edge query -/

/-- C2 counterexample: the pivot-edge query of the public page list
handler interpolates the row ids into the query text, so two runs that
differ only in the id values produce different query strings — refuting
the claim that every issued query passes ids as bound parameters. -/
theorem c2_counterexample :
    pivotEdgeQueryText "p" ["1"] ≠ pivotEdgeQueryText "p" ["2"]
    ∧ pivotEdgeQueryText "p" ["1"]
        = "SELECT left_id, right_id FROM \"p\" WHERE left_id IN ('1')" :=
  ⟨by decide, rfl⟩

/-- C2 amended: every mutation-layer query (`InsertDynamic`,
`UpdateDynamic`, `InsertPivotM2M`, `ClearPivot`) and the batch loader's
`IN` query keep their text independent of the data values — for fixed
table and column names the text depends only on the number of values,
and the ids/values travel as bound arguments — with the single
exception of the pivot-edge query in the page list handler, whose text
varies with the row-id list because the ids are string-concatenated
into it. -/
theorem c2_amended_bound_parameters :
    (∀ (table : String) (ids ids' : List String), ids.length = ids'.length →
      (mkBatchQuery table ids).text = (mkBatchQuery table ids').text)
    ∧ (∀ (table : String) (ids : List String), (mkBatchQuery table ids).args = ids)
    ∧ (∀ (table : String) (fields fields' : List (String × Value)),
        fields.map Prod.fst = fields'.map Prod.fst →
        queryTexts (InsertDynamic table fields) = queryTexts (InsertDynamic table fields'))
    ∧ (∀ (table id id' : String) (fields fields' : List (String × Value)),
        fields.map Prod.fst = fields'.map Prod.fst →
        queryTexts (UpdateDynamic table id fields) = queryTexts (UpdateDynamic table id' fields'))
    ∧ (∀ (pivotTable leftID leftID' : String) (rightIDs rightIDs' : List String),
        rightIDs.length = rightIDs'.length →
        (insertPivotQueries pivotTable leftID rightIDs).map (fun q => q.text)
          = (insertPivotQueries pivotTable leftID' rightIDs').map (fun q => q.text))
    ∧ (∀ (pivotTable leftID : String) (rightIDs : List String),
        (insertPivotQueries pivotTable leftID rightIDs).map (fun q => q.args)
          = rightIDs.map (fun r => [leftID, r]))
    ∧ (∀ (pivotTable leftID leftID' : String),
        (clearPivotQuery pivotTable leftID).text = (clearPivotQuery pivotTable leftID').text)
    ∧ (∀ (pivotTable leftID : String), (clearPivotQuery pivotTable leftID).args = [leftID])
    ∧ pivotEdgeQueryText "p" ["1"] ≠ pivotEdgeQueryText "p" ["2"] := by
  refine ⟨?_, ?_, ?_, ?_, ?_, ?_, fun _ _ _ => rfl, fun _ _ => rfl, by decide⟩
  · intro table ids ids' hlen
    simp [mkBatchQuery, hlen]
  · intro table ids
    rfl
  · intro table fields fields' hk
    have hcols : fields.map (fun f => quoteIdent f.1) = fields'.map (fun f => quoteIdent f.1) := by
      calc fields.map (fun f => quoteIdent f.1)
          = (fields.map Prod.fst).map quoteIdent := by rw [List.map_map]; rfl
        _ = (fields'.map Prod.fst).map quoteIdent := by rw [hk]
        _ = fields'.map (fun f => quoteIdent f.1) := by rw [List.map_map]; rfl
    have hlen : fields.length = fields'.length := by
      have h := congrArg List.length hk
      simpa using h
    cases fields with
    | nil =>
      cases fields' with
      | nil => rfl
      | cons b bs => simp at hlen
    | cons a as =>
      cases fields' with
      | nil => simp at hlen
      | cons b bs =>
        simp only [InsertDynamic, List.isEmpty_cons, queryTexts, hcols, hlen,
          List.map_cons, List.map_nil, if_false, Bool.false_eq_true]
  · intro table id id' fields fields' hk
    have hlen : fields.length = fields'.length := by
      have h := congrArg List.length hk
      simpa using h
    have hsets : fields.enum.map (fun p => quoteIdent p.2.1 ++ " = $" ++ toString (p.1 + 1))
        = fields'.enum.map (fun p => quoteIdent p.2.1 ++ " = $" ++ toString (p.1 + 1)) := by
      calc fields.enum.map (fun p => quoteIdent p.2.1 ++ " = $" ++ toString (p.1 + 1))
          = ((fields.map Prod.fst).enum).map (fun p => quoteIdent p.2 ++ " = $" ++ toString (p.1 + 1)) := by
            rw [List.enum_map, List.map_map]; rfl
        _ = ((fields'.map Prod.fst).enum).map (fun p => quoteIdent p.2 ++ " = $" ++ toString (p.1 + 1)) := by
            rw [hk]
        _ = fields'.enum.map (fun p => quoteIdent p.2.1 ++ " = $" ++ toString (p.1 + 1)) := by
            rw [List.enum_map, List.map_map]; rfl
    cases fields with
    | nil =>
      cases fields' with
      | nil => rfl
      | cons b bs => simp at hlen
    | cons a as =>
      cases fields' with
      | nil => simp at hlen
      | cons b bs =>
        simp only [UpdateDynamic, List.isEmpty_cons, queryTexts, hsets, hlen,
          List.map_cons, List.map_nil, if_false, Bool.false_eq_true]
  · intro pivotTable leftID leftID' rightIDs rightIDs' hlen
    simp only [insertPivotQueries, List.map_map]
    show rightIDs.map (fun _ => insertPivotQueryText pivotTable)
      = rightIDs'.map (fun _ => insertPivotQueryText pivotTable)
    rw [List.map_const', List.map_const', hlen]
  · intro pivotTable leftID rightIDs
    simp only [insertPivotQueries, List.map_map]
    rfl

/-!  ## Batch loader cache membership lemmas (for C5 and C10) -/

theorem mem_foldl_mapInsert {α : Type} :
    ∀ (entries acc : List (String × α)) (x : String × α),
      x ∈ entries.foldl (fun c e => mapInsert c e.1 e.2) acc → x ∈ acc ∨ x ∈ entries := by
  intro entries
  induction entries with
  | nil => intro acc x hx; exact Or.inl hx
  | cons e tl ih =>
    intro acc x hx
    rcases ih (mapInsert acc e.1 e.2) x hx with h | h
    · rcases mem_mapInsert acc e.1 e.2 x h with h2 | h2
      · exact Or.inl h2
      · right
        rw [h2, Prod.mk.eta]
        exact List.mem_cons_self _ _
    · exact Or.inr (List.mem_cons_of_mem _ h)

theorem mem_buildCache {entries : List (String × RawRow)} {x : String × RawRow}
    (hx : x ∈ buildCache entries) : x ∈ entries := by
  rcases mem_foldl_mapInsert entries [] x hx with h | h
  · simp at h
  · exact h

theorem mem_loadEntries (db : DB) :
    ∀ (fk : List (String × List String)) (x : String × RawRow),
      x ∈ loadEntries db fk →
      ∃ t ids, (t, ids) ∈ fk ∧ ids.isEmpty = false ∧ x ∈ tableEntries db t ids := by
  intro fk
  induction fk with
  | nil => intro x hx; simp [loadEntries] at hx
  | cons hd rest ih =>
    obtain ⟨t, ids⟩ := hd
    intro x hx
    rw [loadEntries] at hx
    rcases List.mem_append.mp hx with h | h
    · by_cases he : ids.isEmpty = true
      · rw [if_pos he] at h
        simp at h
      · rw [if_neg he] at h
        exact ⟨t, ids, List.mem_cons_self _ _, by simpa using he, h⟩
    · rcases ih x h with ⟨t', ids', hmem, hne, hx'⟩
      exact ⟨t', ids', List.mem_cons_of_mem _ hmem, hne, hx'⟩

theorem mem_tableEntries (db : DB) (t : String) (ids : List String) (x : String × RawRow)
    (hx : x ∈ tableEntries db t ids) :
    ∃ res vals, db t ids = some res ∧ vals ∈ res.rows ∧ scanOne t res.cols vals = some x := by
  rw [tableEntries] at hx
  cases hres : db t ids with
  | none =>
    rw [hres] at hx
    simp at hx
  | some res =>
    rw [hres] at hx
    rcases List.mem_filterMap.mp hx with ⟨vals, hv, hscan⟩
    exact ⟨res, vals, rfl, hv, hscan⟩

theorem scanOne_eq_some (t : String) (cols : List String) (vals : List Value)
    (k : String) (r : RawRow) (h : scanOne t cols vals = some (k, r)) :
    r = (cols.zip vals).foldl (fun m cv => mapInsert m cv.1 cv.2) []
    ∧ rowIdVal (cols.zip vals) ≠ ""
    ∧ k = t ++ ":" ++ rowIdVal (cols.zip vals) := by
  simp only [scanOne] at h
  by_cases he : (rowIdVal (cols.zip vals) == "") = true
  · rw [if_pos he] at h
    cases h
  · rw [if_neg he] at h
    injection h with h1
    injection h1 with hk hr
    exact ⟨hr.symm, by simpa using he, hk.symm⟩

theorem rowIdVal_cases :
    ∀ (pairs : List (String × Value)) (acc : String),
      pairs.foldl (fun a cv => if cv.1 == "id" && cv.2 != Value.vnull
                               then sprintf_v cv.2 else a) acc = acc
      ∨ ∃ v, ("id", v) ∈ pairs ∧ v ≠ Value.vnull
          ∧ pairs.foldl (fun a cv => if cv.1 == "id" && cv.2 != Value.vnull
                                     then sprintf_v cv.2 else a) acc = sprintf_v v := by
  intro pairs
  induction pairs with
  | nil => intro acc; exact Or.inl rfl
  | cons cv tl ih =>
    intro acc
    rw [List.foldl_cons]
    by_cases hc : (cv.1 == "id" && cv.2 != Value.vnull) = true
    · have hid : cv.1 = "id" := by
        have h1 := (Bool.and_eq_true _ _).mp hc
        simpa using h1.1
      have hvn : cv.2 ≠ Value.vnull := by
        have h1 := (Bool.and_eq_true _ _).mp hc
        simpa using h1.2
      have hmem : ("id", cv.2) ∈ cv :: tl := by
        have : ("id", cv.2) = cv := by
          rw [← hid]
        rw [this]
        exact List.mem_cons_self _ _
      rw [if_pos hc]
      rcases ih (sprintf_v cv.2) with h | ⟨v, hv, hvn', hfold⟩
      · exact Or.inr ⟨cv.2, hmem, hvn, h⟩
      · exact Or.inr ⟨v, List.mem_cons_of_mem _ hv, hvn', hfold⟩
    · rw [if_neg hc]
      rcases ih acc with h | ⟨v, hv, hvn', hfold⟩
      · exact Or.inl h
      · exact Or.inr ⟨v, List.mem_cons_of_mem _ hv, hvn', hfold⟩

theorem lookup_foldl_no_key :
    ∀ (pairs acc : List (String × Value)) (k : String),
      (∀ p ∈ pairs, p.1 ≠ k) →
      lookupMap (pairs.foldl (fun m cv => mapInsert m cv.1 cv.2) acc) k = lookupMap acc k := by
  intro pairs
  induction pairs with
  | nil => intro acc k _; rfl
  | cons cv tl ih =>
    intro acc k hno
    rw [List.foldl_cons, ih (mapInsert acc cv.1 cv.2) k
      (fun p hp => hno p (List.mem_cons_of_mem _ hp))]
    exact lookupMap_mapInsert_ne acc cv.1 k cv.2
      (fun he => hno cv (List.mem_cons_self _ _) he.symm)

theorem lookup_buildRow_unique :
    ∀ (pairs : List (String × Value)) (acc : List (String × Value)) (v : Value),
      ((pairs.map Prod.fst).count "id") ≤ 1 → ("id", v) ∈ pairs →
      lookupMap (pairs.foldl (fun m cv => mapInsert m cv.1 cv.2) acc) "id" = some v := by
  intro pairs
  induction pairs with
  | nil =>
    intro acc v _ hmem
    simp at hmem
  | cons cv tl ih =>
    intro acc v hcount hmem
    by_cases hck : cv.1 = "id"
    · have htl0 : ∀ p ∈ tl, p.1 ≠ "id" := by
        intro p hp hpk
        have h1 : ((cv :: tl).map Prod.fst).count "id" = (tl.map Prod.fst).count "id" + 1 := by
          rw [List.map_cons, hck, List.count_cons_self]
        have h2 : "id" ∈ tl.map Prod.fst := hpk ▸ List.mem_map_of_mem Prod.fst hp
        have h3 : 0 < (tl.map Prod.fst).count "id" := List.count_pos_iff.mpr h2
        omega
      rcases List.mem_cons.mp hmem with h | h
      · rw [List.foldl_cons, lookup_foldl_no_key tl _ "id" htl0, ← h]
        exact lookupMap_mapInsert_self acc "id" v
      · exact absurd rfl (htl0 ("id", v) h)
    · have hmem' : ("id", v) ∈ tl := by
        rcases List.mem_cons.mp hmem with h | h
        · exact absurd (congrArg Prod.fst h).symm hck
        · exact h
      have hcount' : ((tl.map Prod.fst).count "id") ≤ 1 := by
        have h1 : ((cv :: tl).map Prod.fst).count "id" = (tl.map Prod.fst).count "id" := by
          rw [List.map_cons, List.count_cons_of_ne (fun he => hck he.symm)]
        omega
      rw [List.foldl_cons]
      exact ih (mapInsert acc cv.1 cv.2) v hcount' hmem'

theorem count_map_fst_zip (cols : List String) (x : String) :
    ∀ (vals : List Value), (((cols.zip vals).map Prod.fst).count x) ≤ cols.count x := by
  induction cols with
  | nil => intro vals; simp
  | cons c cols' ih =>
    intro vals
    cases vals with
    | nil =>
      simp
    | cons v vals' =>
      rw [List.zip_cons_cons, List.map_cons]
      by_cases h : c = x
      · rw [h, List.count_cons_self, List.count_cons_self]
        exact Nat.succ_le_succ (ih vals')
      · rw [List.count_cons_of_ne (fun he => h he.symm),
            List.count_cons_of_ne (fun he => h he.symm)]
        exact ih vals'

/-!  ## C10 — cache keys agree with the stored row's own id -/

/-- C10: every binding of the cache returned by `batchLoadRelated` is
keyed `<table>:<id>` where `<id>` is the (non-empty) stringification of
the stored row's own non-null `id` column, for a table of the demand
map; rows whose id column is null, absent, or stringifies to the empty
string never enter the cache (hypothesis: each result set lists the
`id` column at most once, as `SELECT *` on a table does). -/
theorem c10_cache_key_agrees (db : DB) (fk : List (String × List String))
    (hcols : ∀ t ids res, db t ids = some res → (res.cols.count "id") ≤ 1)
    (k : String) (r : RawRow) (hmem : (k, r) ∈ (batchLoadRelated db fk).1) :
    ∃ t ids, (t, ids) ∈ fk ∧ ∃ v, lookupMap r "id" = some v ∧ v ≠ Value.vnull
      ∧ sprintf_v v ≠ "" ∧ k = t ++ ":" ++ sprintf_v v := by
  have hx : (k, r) ∈ loadEntries db fk := mem_buildCache hmem
  rcases mem_loadEntries db fk _ hx with ⟨t, ids, hfk, -, hte⟩
  rcases mem_tableEntries db t ids _ hte with ⟨res, vals, hres, -, hscan⟩
  rcases scanOne_eq_some t res.cols vals k r hscan with ⟨hr, hne, hk⟩
  rw [rowIdVal] at hne hk
  rcases rowIdVal_cases (res.cols.zip vals) "" with h0 | ⟨v, hvmem, hvn, hfold⟩
  · exact absurd h0 hne
  · have hcount : (((res.cols.zip vals).map Prod.fst).count "id") ≤ 1 :=
      le_trans (count_map_fst_zip res.cols "id" vals) (hcols t ids res hres)
    have hlook : lookupMap r "id" = some v := by
      rw [hr]
      exact lookup_buildRow_unique (res.cols.zip vals) [] v hcount hvmem
    refine ⟨t, ids, hfk, v, hlook, hvn, ?_, ?_⟩
    · rw [← hfold]
      exact hne
    · rw [hk, hfold]

/-- Witness for C10 at a concrete database and demand map. -/
theorem c10_cache_key_agrees_witness :
    ∃ t ids, (t, ids) ∈ [("t", ["7"])]
      ∧ ∃ v, lookupMap [("id", Value.vstr "7"), ("name", Value.vstr "x")] "id" = some v
          ∧ v ≠ Value.vnull ∧ sprintf_v v ≠ "" ∧ "t:7" = t ++ ":" ++ sprintf_v v :=
  c10_cache_key_agrees
    (fun t _ => if t == "t"
      then some ⟨["id", "name"], [[Value.vstr "7", Value.vstr "x"]]⟩ else none)
    [("t", ["7"])]
    (by
      intro t ids res h
      dsimp only at h
      by_cases ht : (t == "t") = true
      · rw [if_pos ht] at h
        injection h with h'
        rw [← h']
        decide
      · rw [if_neg ht] at h
        cases h)
    "t:7" [("id", Value.vstr "7"), ("name", Value.vstr "x")]
    (by decide)

/-!  ## C5 — a failing target table is skipped silently -/

theorem loadQueries_eq (fk : List (String × List String)) :
    loadQueries fk = (fk.filter (fun p => !p.2.isEmpty)).map (fun p => mkBatchQuery p.1 p.2) := by
  induction fk with
  | nil => rfl
  | cons hd rest ih =>
    obtain ⟨t, ids⟩ := hd
    by_cases h : ids.isEmpty = true <;>
      simp [loadQueries, List.filter_cons, h, ih]

theorem colon_append_inj :
    ∀ (a b s s' : List Char), ':' ∉ a → ':' ∉ b →
      a ++ ':' :: s = b ++ ':' :: s' → a = b := by
  intro a
  induction a with
  | nil =>
    intro b s s' _ hb h
    cases b with
    | nil => rfl
    | cons c bs =>
      injection h with h1 h2
      exact absurd (h1 ▸ List.mem_cons_self c bs) hb
  | cons c as ih =>
    intro b s s' ha hb h
    cases b with
    | nil =>
      injection h with h1 h2
      exact absurd (h1 ▸ List.mem_cons_self c as) ha
    | cons d bs =>
      injection h with h1 h2
      rw [h1, ih bs s s' (fun hm => ha (List.mem_cons_of_mem _ hm))
        (fun hm => hb (List.mem_cons_of_mem _ hm)) h2]

theorem string_colon_key_inj (t t' s s' : String)
    (ht : ':' ∉ t.data) (ht' : ':' ∉ t'.data)
    (h : t ++ ":" ++ s = t' ++ ":" ++ s') : t = t' := by
  have hcolon : (":" : String).data = [':'] := rfl
  have hd : t.data ++ ':' :: s.data = t'.data ++ ':' :: s'.data := by
    have h0 := congrArg String.data h
    rw [String.data_append, String.data_append, String.data_append, String.data_append,
        hcolon] at h0
    simpa [List.append_assoc] using h0
  have hdata := colon_append_inj t.data t'.data s.data s'.data ht ht' hd
  exact String.ext hdata

theorem loadEntries_skip_err (db : DB) (t' : String) (herr : ∀ ids, db t' ids = none) :
    ∀ fk : List (String × List String),
      loadEntries db fk = loadEntries db (fk.filter (fun p => !(p.1 == t'))) := by
  intro fk
  induction fk with
  | nil => rfl
  | cons hd rest ih =>
    obtain ⟨t, ids⟩ := hd
    by_cases ht : t = t'
    · rw [loadEntries, List.filter_cons_of_neg (by simp [ht])]
      have hte : (if ids.isEmpty = true then ([] : List (String × RawRow))
          else tableEntries db t ids) = [] := by
        by_cases he : ids.isEmpty = true
        · rw [if_pos he]
        · rw [if_neg he, tableEntries, ht, herr ids]
      rw [hte, ih]
      rfl
    · rw [loadEntries, List.filter_cons_of_pos (by simp [ht]), loadEntries, ih]

/-- C5: when the batch-load query for one target table always fails, the
loader still returns a cache (no error is surfaced by construction),
that cache is exactly the one obtained with the failing table dropped
from the demand map (resolution of every other table, relation and row
is unaffected), every other non-empty demand still gets its query, no
cache key of the failed table exists, and pass 2 therefore leaves the
foreign keys referencing the failed table as raw scalars in the output
(hypothesis: table names contain no `:`, so cache keys cannot collide
across tables). -/
theorem c5_failed_table_skipped_silently (db : DB) (t' : String)
    (fk : List (String × List String))
    (herr : ∀ ids, db t' ids = none)
    (hfree : ∀ p ∈ fk, ':' ∉ p.1.data) (hfree' : ':' ∉ t'.data) :
    (batchLoadRelated db fk).1 = (batchLoadRelated db (fk.filter (fun p => !(p.1 == t')))).1
    ∧ (∀ p ∈ fk, p.1 ≠ t' → p.2.isEmpty = false →
        mkBatchQuery p.1 p.2 ∈ (batchLoadRelated db fk).2)
    ∧ (∀ i, lookupMap (batchLoadRelated db fk).1 (t' ++ ":" ++ i) = none)
    ∧ (∀ (pT : String) (pd : List (String × List (String × List String)))
        (rel : RelationDefinition) (entry : MRow),
        isScalarKind rel = true → rel.ToTable = t' →
        pass2rel pT pd (batchLoadRelated db fk).1 entry rel = entry) := by
  have hkeys : ∀ i, lookupMap (batchLoadRelated db fk).1 (t' ++ ":" ++ i) = none := by
    intro i
    apply lookupMap_eq_none_of_no_key
    rintro ⟨k, r⟩ hx hkey
    have hx' : (k, r) ∈ loadEntries db fk := mem_buildCache hx
    rcases mem_loadEntries db fk _ hx' with ⟨t, ids, hfk, -, hte⟩
    rcases mem_tableEntries db t ids _ hte with ⟨res, vals, hres, -, hscan⟩
    rcases scanOne_eq_some t res.cols vals k r hscan with ⟨-, -, hk⟩
    have htne : t ≠ t' := by
      intro he
      rw [he, herr ids] at hres
      cases hres
    have hkey' : k = t' ++ ":" ++ i := hkey
    exact htne (string_colon_key_inj t t' (rowIdVal (res.cols.zip vals)) i
      (hfree (t, ids) hfk) hfree' (by rw [← hk]; exact hkey'))
  refine ⟨?_, ?_, hkeys, ?_⟩
  · show buildCache (loadEntries db fk) = buildCache (loadEntries db _)
    rw [loadEntries_skip_err db t' herr fk]
  · intro p hp hne hnemp
    show mkBatchQuery p.1 p.2 ∈ loadQueries fk
    rw [loadQueries_eq]
    exact List.mem_map_of_mem _ (List.mem_filter.mpr ⟨hp, by simp [hnemp]⟩)
  · intro pT pd rel entry hk htt
    rw [pass2rel, if_pos (by simp [hk]), pass2scalar]
    cases hl : lookupMap entry rel.FromColumn with
    | none => rfl
    | some fv =>
      dsimp only
      by_cases hnull : (fv == MValue.scalar Value.vnull) = true
      · rw [if_pos hnull]
      · rw [if_neg hnull]
        by_cases hstr : (sprintfM fv == "") = true
        · rw [if_pos hstr]
        · rw [if_neg hstr]
          rw [htt]
          simp only [hkeys (sprintfM fv)]

/-- Witness for C5: a database erroring on table `bad`, demands for
`t` and `bad`. -/
theorem c5_failed_table_skipped_silently_witness :
    (batchLoadRelated
        (fun t _ => if t == "t" then some ⟨["id"], [[Value.vstr "7"]]⟩ else none)
        [("t", ["7"]), ("bad", ["9"])]).1
      = (batchLoadRelated
          (fun t _ => if t == "t" then some ⟨["id"], [[Value.vstr "7"]]⟩ else none)
          ([("t", ["7"]), ("bad", ["9"])].filter (fun p => !(p.1 == "bad")))).1
    ∧ mkBatchQuery "t" ["7"] ∈ (batchLoadRelated
        (fun t _ => if t == "t" then some ⟨["id"], [[Value.vstr "7"]]⟩ else none)
        [("t", ["7"]), ("bad", ["9"])]).2
    ∧ lookupMap (batchLoadRelated
        (fun t _ => if t == "t" then some ⟨["id"], [[Value.vstr "7"]]⟩ else none)
        [("t", ["7"]), ("bad", ["9"])]).1 ("bad" ++ ":" ++ "9") = none
    ∧ pass2rel "pages" [] (batchLoadRelated
        (fun t _ => if t == "t" then some ⟨["id"], [[Value.vstr "7"]]⟩ else none)
        [("t", ["7"]), ("bad", ["9"])]).1 [("ref", MValue.scalar (Value.vstr "9"))]
        ⟨"one-to-one", "ref", "bad", "", ""⟩
      = [("ref", MValue.scalar (Value.vstr "9"))] := by
  have h := c5_failed_table_skipped_silently
    (fun t _ => if t == "t" then some ⟨["id"], [[Value.vstr "7"]]⟩ else none) "bad"
    [("t", ["7"]), ("bad", ["9"])] (fun _ => rfl) (by decide) (by decide)
  exact ⟨h.1, h.2.1 ("t", ["7"]) (by decide) (by decide) rfl,
    h.2.2.1 "9", h.2.2.2 "pages" [] ⟨"one-to-one", "ref", "bad", "", ""⟩
      [("ref", MValue.scalar (Value.vstr "9"))] rfl rfl⟩

/-!  ## C1 — one query per distinct non-empty target table -/

/-- C1: `batchLoadRelated` issues exactly the `SELECT * FROM <table>
WHERE id IN (...)` queries of the demand entries with a non-empty id
set, one per such table and in demand order — no query for an empty id
set — so the total query count equals the number of demand-map entries
(distinct target tables) with non-empty id sets, whatever the rows and
relations that produced the demands. -/
theorem c1_one_query_per_nonempty_table (db : DB) (fk : List (String × List String)) :
    (batchLoadRelated db fk).2
      = (fk.filter (fun p => !p.2.isEmpty)).map (fun p => mkBatchQuery p.1 p.2)
    ∧ (batchLoadRelated db fk).2.length = (fk.filter (fun p => !p.2.isEmpty)).length := by
  refine ⟨loadQueries_eq fk, ?_⟩
  show (loadQueries fk).length = _
  rw [loadQueries_eq fk, List.length_map]

/-!  ## C3 — many-to-many materialization is always a list -/

/-- C3: per row and many-to-many relation, pass 2 always stores a list
at `FromColumn` (never null, never a missing key): one element per pivot
right-id — the cached object when `<toTable>:<rid>` resolves, else the
raw right-id string — and the empty list when the row has no pivot
edges (or the pivot was never loaded). -/
theorem c3_m2m_always_list (pT : String)
    (pivotData : List (String × List (String × List String)))
    (cache : List (String × RawRow)) (rel : RelationDefinition) (entry : MRow)
    (h : rel.Type' = "many-to-many") :
    lookupMap (pass2rel pT pivotData cache entry rel) rel.FromColumn
      = some (MValue.mlist
          ((rightIDsOf pivotData (pivotTableName pT rel) (entryIdStr entry)).map (fun rid =>
            match lookupMap cache (rel.ToTable ++ ":" ++ rid) with
            | some obj => MValue.obj obj
            | none => MValue.scalar (Value.vstr rid)))) := by
  have hsk : isScalarKind rel = false := by simp [isScalarKind, h]
  rw [pass2rel, if_neg (by simp [hsk]), if_pos (by simp [h])]
  rw [pass2m2m, rightIDsOf]
  cases hpd : lookupMap pivotData (pivotTableName pT rel) with
  | none => simpa using lookupMap_mapInsert_self entry rel.FromColumn (MValue.mlist [])
  | some pairs =>
    dsimp only
    by_cases hempty : ((lookupMap pairs (entryIdStr entry)).getD []).isEmpty = true
    · have hnil : (lookupMap pairs (entryIdStr entry)).getD [] = [] := by
        simpa [List.isEmpty_iff] using hempty
      rw [if_pos hempty, hnil]
      simpa using lookupMap_mapInsert_self entry rel.FromColumn (MValue.mlist [])
    · rw [if_neg hempty]
      exact lookupMap_mapInsert_self entry rel.FromColumn _

/-- Witness for C3: a row with one resolvable and one unresolvable
pivot right-id. -/
theorem c3_m2m_always_list_witness :
    lookupMap
        (pass2rel "pages" [("pages_tags_tags", [("1", ["7", "8"])])]
          [("tags:7", [("id", Value.vstr "7")])]
          [("id", MValue.scalar (Value.vstr "1"))]
          ⟨"many-to-many", "tags", "tags", "", ""⟩)
        "tags"
      = some (MValue.mlist
          ((rightIDsOf [("pages_tags_tags", [("1", ["7", "8"])])]
            (pivotTableName "pages" ⟨"many-to-many", "tags", "tags", "", ""⟩)
            (entryIdStr [("id", MValue.scalar (Value.vstr "1"))])).map (fun rid =>
              match lookupMap [("tags:7", [("id", Value.vstr "7")])] ("tags" ++ ":" ++ rid) with
              | some obj => MValue.obj obj
              | none => MValue.scalar (Value.vstr rid)))) :=
  c3_m2m_always_list "pages" [("pages_tags_tags", [("1", ["7", "8"])])]
    [("tags:7", [("id", Value.vstr "7")])] ⟨"many-to-many", "tags", "tags", "", ""⟩
    [("id", MValue.scalar (Value.vstr "1"))] rfl

/-!  ## C4 — scalar-relation demand collection and substitution -/

theorem beq_scalar_vnull_iff (fv : MValue) :
    (fv == MValue.scalar Value.vnull) = true ↔ fv = MValue.scalar Value.vnull := by
  cases fv with
  | scalar v =>
    constructor
    · intro h
      have hv : v = Value.vnull := by
        have h' : (v == Value.vnull) = true := h
        simpa using h'
      rw [hv]
    · intro h
      injection h with h'
      rw [h']
      rfl
  | obj r =>
    constructor
    · intro h
      exact Bool.noConfusion h
    · intro h
      exact MValue.noConfusion h
  | mlist xs =>
    constructor
    · intro h
      exact Bool.noConfusion h
    · intro h
      exact MValue.noConfusion h

/-- The row registers foreign key `i` for the relation: the source
column is present, non-nil, and stringifies to the (non-empty) id. -/
def rowHasFK (rel : RelationDefinition) (row : RawRow) (i : String) : Prop :=
  ∃ v, lookupMap row rel.FromColumn = some v ∧ v ≠ Value.vnull ∧ sprintf_v v = i ∧ i ≠ ""

theorem demandMem_cons (a : String) (ids : List String)
    (rest : List (String × List String)) (t i : String) :
    demandMem ((a, ids) :: rest) t i ↔ (t = a ∧ i ∈ ids) ∨ demandMem rest t i := by
  constructor
  · rintro ⟨ids0, hmem, hi⟩
    rcases List.mem_cons.mp hmem with h | h
    · injection h with h1 h2
      subst h1; subst h2
      exact Or.inl ⟨rfl, hi⟩
    · exact Or.inr ⟨ids0, h, hi⟩
  · rintro (⟨ht, hi⟩ | ⟨ids0, hmem, hi⟩)
    · subst ht
      exact ⟨ids, List.mem_cons_self _ _, hi⟩
    · exact ⟨ids0, List.mem_cons_of_mem _ hmem, hi⟩

theorem demandMem_nil (t i : String) : ¬demandMem [] t i := by
  rintro ⟨ids, hmem, _⟩
  simp at hmem

theorem demandMem_addFK (m : List (String × List String)) (t i t' i' : String) :
    demandMem (addFK m t i) t' i' ↔ (t' = t ∧ i' = i) ∨ demandMem m t' i' := by
  induction m with
  | nil =>
    rw [addFK, demandMem_cons]
    constructor
    · rintro (⟨ht, hi⟩ | h)
      · exact Or.inl ⟨ht, by simpa using hi⟩
      · exact absurd h (demandMem_nil t' i')
    · rintro (⟨ht, hi⟩ | h)
      · exact Or.inl ⟨ht, by simpa using hi⟩
      · exact absurd h (demandMem_nil t' i')
  | cons hd tl ih =>
    obtain ⟨a, ids⟩ := hd
    by_cases h : a = t
    · rw [addFK, if_pos (by simpa using h), demandMem_cons, demandMem_cons]
      have hmem : i' ∈ (if ids.contains i then ids else ids ++ [i]) ↔ i' ∈ ids ∨ i' = i := by
        by_cases hc : ids.contains i = true
        · rw [if_pos hc]
          have hin : i ∈ ids := by simpa using hc
          constructor
          · exact Or.inl
          · rintro (hh | hh)
            · exact hh
            · rw [hh]; exact hin
        · rw [if_neg hc]
          simp
      rw [hmem, h]
      tauto
    · rw [addFK, if_neg (by simpa using h), demandMem_cons, demandMem_cons, ih]
      tauto

theorem collectRow_mem (rel : RelationDefinition) (t i : String) :
    ∀ (rows : List RawRow) (m : List (String × List String)),
      demandMem (collectRow rel m rows) t i
        ↔ demandMem m t i ∨ (rel.ToTable = t ∧ ∃ row ∈ rows, rowHasFK rel row i) := by
  intro rows
  induction rows with
  | nil =>
    intro m
    simp [collectRow]
  | cons row rest ih =>
    intro m
    have hhead : ∀ m' : List (String × List String),
        (∃ r ∈ row :: rest, rowHasFK rel r i) ↔ rowHasFK rel row i ∨ ∃ r ∈ rest, rowHasFK rel r i := by
      intro m'
      constructor
      · rintro ⟨r, hr, hfk⟩
        rcases List.mem_cons.mp hr with h | h
        · exact Or.inl (h ▸ hfk)
        · exact Or.inr ⟨r, h, hfk⟩
      · rintro (hfk | ⟨r, hr, hfk⟩)
        · exact ⟨row, List.mem_cons_self _ _, hfk⟩
        · exact ⟨r, List.mem_cons_of_mem _ hr, hfk⟩
    cases hv : lookupMap row rel.FromColumn with
    | none =>
      rw [collectRow]
      simp only [hv]
      rw [ih m, hhead m]
      have hnofk : ¬rowHasFK rel row i := by
        rintro ⟨v, hl, _⟩
        rw [hv] at hl
        cases hl
      tauto
    | some v =>
      by_cases hnull : v = Value.vnull
      · rw [collectRow]
        simp only [hv, hnull, beq_self_eq_true, if_true]
        rw [ih m, hhead m]
        have hnofk : ¬rowHasFK rel row i := by
          rintro ⟨v', hl, hne, _⟩
          rw [hv] at hl
          injection hl with hl
          exact hne (hl ▸ hnull)
        tauto
      · by_cases hstr : sprintf_v v = ""
        · rw [collectRow]
          simp only [hv]
          rw [if_neg (show ¬(v == Value.vnull) = true by simpa using hnull),
              if_pos (show (sprintf_v v == "") = true by simpa using hstr)]
          rw [ih m, hhead m]
          have hnofk : ¬rowHasFK rel row i := by
            rintro ⟨v', hl, hne, hsp, hine⟩
            rw [hv] at hl
            injection hl with hl
            subst hl
            exact hine (hsp ▸ hstr)
          tauto
        · rw [collectRow]
          simp only [hv]
          rw [if_neg (show ¬(v == Value.vnull) = true by simpa using hnull),
              if_neg (show ¬(sprintf_v v == "") = true by simpa using hstr)]
          rw [ih (addFK m rel.ToTable (sprintf_v v)), hhead m, demandMem_addFK]
          have hfk : rowHasFK rel row i ↔ (t = rel.ToTable → sprintf_v v = i) ∧ sprintf_v v = i := by
            constructor
            · rintro ⟨v', hl, hne, hsp, hine⟩
              rw [hv] at hl
              injection hl with hl
              subst hl
              exact ⟨fun _ => hsp, hsp⟩
            · rintro ⟨-, hsp⟩
              exact ⟨v, hv, hnull, hsp, fun he => hstr (hsp.symm ▸ he)⟩
          constructor
          · rintro ((⟨ht, hi⟩ | hm) | hrest)
            · exact Or.inr ⟨ht.symm ▸ rfl, Or.inl (hfk.mpr ⟨fun _ => hi.symm, hi.symm⟩)⟩
            · exact Or.inl hm
            · rcases hrest with ⟨htt, hr⟩
              exact Or.inr ⟨htt, Or.inr hr⟩
          · rintro (hm | ⟨htt, hfk1 | hrest⟩)
            · exact Or.inl (Or.inr hm)
            · rcases hfk.mp hfk1 with ⟨-, hsp⟩
              exact Or.inl (Or.inl ⟨htt.symm, hsp.symm⟩)
            · exact Or.inr ⟨htt, hrest⟩

theorem collectRels_mem (rows : List RawRow) (t i : String) :
    ∀ (rels : List RelationDefinition) (m : List (String × List String)),
      demandMem (collectRels rows m rels) t i
        ↔ demandMem m t i
          ∨ ∃ rel ∈ rels, isScalarKind rel = true ∧ rel.ToTable = t
              ∧ ∃ row ∈ rows, rowHasFK rel row i := by
  intro rels
  induction rels with
  | nil =>
    intro m
    simp [collectRels]
  | cons rel rest ih =>
    intro m
    have hhead : (∃ r ∈ rel :: rest, isScalarKind r = true ∧ r.ToTable = t ∧ ∃ row ∈ rows, rowHasFK r row i)
        ↔ (isScalarKind rel = true ∧ rel.ToTable = t ∧ ∃ row ∈ rows, rowHasFK rel row i)
          ∨ ∃ r ∈ rest, isScalarKind r = true ∧ r.ToTable = t ∧ ∃ row ∈ rows, rowHasFK r row i := by
      constructor
      · rintro ⟨r, hr, hp⟩
        rcases List.mem_cons.mp hr with h | h
        · exact Or.inl (h ▸ hp)
        · exact Or.inr ⟨r, h, hp⟩
      · rintro (hp | ⟨r, hr, hp⟩)
        · exact ⟨rel, List.mem_cons_self _ _, hp⟩
        · exact ⟨r, List.mem_cons_of_mem _ hr, hp⟩
    rw [collectRels, hhead]
    by_cases hk : isScalarKind rel = true
    · rw [if_pos hk, ih, collectRow_mem]
      constructor
      · rintro ((ha | ⟨ht, he⟩) | hr)
        · exact Or.inl ha
        · exact Or.inr (Or.inl ⟨hk, ht, he⟩)
        · exact Or.inr (Or.inr hr)
      · rintro (ha | (⟨-, ht, he⟩ | hr))
        · exact Or.inl (Or.inl ha)
        · exact Or.inl (Or.inr ⟨ht, he⟩)
        · exact Or.inr hr
    · rw [if_neg hk, ih]
      constructor
      · rintro (ha | hr)
        · exact Or.inl ha
        · exact Or.inr (Or.inr hr)
      · rintro (ha | (⟨h1, -⟩ | hr))
        · exact Or.inl ha
        · exact absurd h1 hk
        · exact Or.inr hr

/-- C4 counterexample: a present, non-null foreign-key scalar whose
`%v`-stringification is the empty string (`""`) registers no demand in
pass 1, although the claim says every non-null scalar does. -/
theorem c4_counterexample :
    lookupMap [("ref", Value.vstr "")] "ref" = some (Value.vstr "")
    ∧ Value.vstr "" ≠ Value.vnull
    ∧ collectFK [⟨"one-to-one", "ref", "t", "", ""⟩] [[("ref", Value.vstr "")]] = [] := by
  refine ⟨rfl, by decide, rfl⟩

/-- C4 amended: for scalar-kind relations, pass 1 registers
`(targetTable, stringifiedId)` exactly for the rows whose source-column
scalar is present, non-null, *and stringifies to a non-empty string*
(the code also skips an empty stringification); and pass 2 replaces the
scalar with the cached object exactly on a cache hit, leaving the row
untouched otherwise — in particular a null foreign key registers no
demand and survives pass 2 unchanged. -/
theorem c4_amended_scalar_resolution :
    (∀ (rels : List RelationDefinition) (rows : List RawRow) (t i : String),
      demandMem (collectFK rels rows) t i
        ↔ ∃ rel ∈ rels, isScalarKind rel = true ∧ rel.ToTable = t
            ∧ ∃ row ∈ rows, rowHasFK rel row i)
    ∧ (∀ (pT : String) (pd : List (String × List (String × List String)))
        (cache : List (String × RawRow)) (rel : RelationDefinition) (entry : MRow),
        isScalarKind rel = true →
        (lookupMap entry rel.FromColumn = some (MValue.scalar Value.vnull) →
          pass2rel pT pd cache entry rel = entry)
        ∧ (∀ fv obj, lookupMap entry rel.FromColumn = some fv →
            fv ≠ MValue.scalar Value.vnull → sprintfM fv ≠ "" →
            lookupMap cache (rel.ToTable ++ ":" ++ sprintfM fv) = some obj →
            pass2rel pT pd cache entry rel = mapInsert entry rel.FromColumn (MValue.obj obj))
        ∧ (∀ fv, lookupMap entry rel.FromColumn = some fv →
            lookupMap cache (rel.ToTable ++ ":" ++ sprintfM fv) = none →
            pass2rel pT pd cache entry rel = entry)) := by
  constructor
  · intro rels rows t i
    rw [collectFK, collectRels_mem]
    have h0 : ¬demandMem [] t i := demandMem_nil t i
    tauto
  · intro pT pd cache rel entry hk
    refine ⟨?_, ?_, ?_⟩
    · intro hnull
      rw [pass2rel, if_pos (by simp [hk]), pass2scalar]
      simp only [hnull]
      rw [if_pos (show (MValue.scalar Value.vnull == MValue.scalar Value.vnull) = true from rfl)]
    · intro fv obj hl hne hstr hcache
      rw [pass2rel, if_pos (by simp [hk]), pass2scalar]
      simp only [hl]
      rw [if_neg (fun hbeq => hne ((beq_scalar_vnull_iff fv).mp hbeq))]
      rw [if_neg (by simpa using hstr)]
      simp only [hcache]
    · intro fv hl hcache
      rw [pass2rel, if_pos (by simp [hk]), pass2scalar]
      simp only [hl]
      by_cases hbeq : (fv == MValue.scalar Value.vnull) = true
      · rw [if_pos hbeq]
      · rw [if_neg hbeq]
        by_cases hstr : (sprintfM fv == "") = true
        · rw [if_pos hstr]
        · rw [if_neg hstr]
          simp only [hcache]

/-- Witness for the amended C4: a demand registered for a concrete row
and a concrete pass-2 cache hit. -/
theorem c4_amended_scalar_resolution_witness :
    demandMem
        (collectFK [⟨"one-to-one", "ref", "t", "", ""⟩] [[("ref", Value.vstr "5")]]) "t" "5"
    ∧ pass2rel "pages" [] [("t:5", [("id", Value.vstr "5")])]
        [("ref", MValue.scalar (Value.vstr "5"))] ⟨"one-to-one", "ref", "t", "", ""⟩
      = mapInsert [("ref", MValue.scalar (Value.vstr "5"))] "ref"
          (MValue.obj [("id", Value.vstr "5")]) := by
  constructor
  · exact (c4_amended_scalar_resolution.1 [⟨"one-to-one", "ref", "t", "", ""⟩]
      [[("ref", Value.vstr "5")]] "t" "5").mpr
      ⟨⟨"one-to-one", "ref", "t", "", ""⟩, List.mem_cons_self _ _, rfl, rfl,
        [("ref", Value.vstr "5")], List.mem_cons_self _ _,
        Value.vstr "5", rfl, by decide, rfl, by decide⟩
  · exact (c4_amended_scalar_resolution.2 "pages" [] [("t:5", [("id", Value.vstr "5")])]
      ⟨"one-to-one", "ref", "t", "", ""⟩ [("ref", MValue.scalar (Value.vstr "5"))] rfl).2.1
      (MValue.scalar (Value.vstr "5")) [("id", Value.vstr "5")] rfl
      (by intro h; cases h) (by decide) rfl

/-!  ## C8 — sequential pivot inserts, first error, no rollback -/

/-- C8: `InsertPivotM2M` executes one single-edge insert per right-id in
order.  Either every insert succeeds — one `(left_id, right_id)` row
appended per element, `rightIDs.length` inserts executed — or the first
failing insert (index `k`, with every earlier insert having succeeded)
stops the loop: its error is returned, exactly `k + 1` inserts were
attempted, and the store keeps the `k` rows already inserted (no
rollback). -/
theorem c8_pivot_insert_run (orac : PivotOracle) (st : PivotState)
    (p l : String) (rids : List String) :
    ((InsertPivotM2M orac st p l rids).result = .ok ()
      ∧ (InsertPivotM2M orac st p l rids).state = st ++ rids.map (fun r => (p, l, r))
      ∧ (InsertPivotM2M orac st p l rids).calls = rids.length)
    ∨ (∃ k e, k < rids.length
        ∧ (InsertPivotM2M orac st p l rids).result = .error e
        ∧ (InsertPivotM2M orac st p l rids).state
            = st ++ (rids.take k).map (fun r => (p, l, r))
        ∧ (InsertPivotM2M orac st p l rids).calls = k + 1
        ∧ orac (st ++ (rids.take k).map (fun r => (p, l, r))) p l (rids.getD k "") = some e
        ∧ ∀ j, j < k →
            orac (st ++ (rids.take j).map (fun r => (p, l, r))) p l (rids.getD j "") = none) := by
  induction rids generalizing st with
  | nil =>
    left
    exact ⟨rfl, by simp [InsertPivotM2M], rfl⟩
  | cons r rest ih =>
    cases horac : orac st p l r with
    | some e =>
      right
      refine ⟨0, e, Nat.succ_pos _, ?_, ?_, ?_, ?_, ?_⟩
      · simp [InsertPivotM2M, horac]
      · simp [InsertPivotM2M, horac]
      · simp [InsertPivotM2M, horac]
      · simpa using horac
      · intro j hj; omega
    | none =>
      rcases ih (st ++ [(p, l, r)]) with ⟨h1, h2, h3⟩ | ⟨k, e, hk, h1, h2, h3, h4, h5⟩
      · left
        refine ⟨?_, ?_, ?_⟩
        · simp [InsertPivotM2M, horac, h1]
        · simp only [InsertPivotM2M, horac]
          rw [h2]
          simp
        · simp [InsertPivotM2M, horac, h3]
      · right
        refine ⟨k + 1, e, by simpa using Nat.succ_lt_succ hk, ?_, ?_, ?_, ?_, ?_⟩
        · simp [InsertPivotM2M, horac, h1]
        · simp only [InsertPivotM2M, horac]
          rw [h2]
          simp [List.take_succ_cons]
        · simp [InsertPivotM2M, horac, h3]
        · rw [List.take_succ_cons, List.getD_cons_succ]
          simpa using h4
        · intro j hj
          cases j with
          | zero => simpa using horac
          | succ j' =>
            rw [List.take_succ_cons, List.getD_cons_succ]
            have := h5 j' (by omega)
            simpa using this

/-!  ## C9 — clear-then-insert is idempotent on the edge set -/

theorem insertAllOk_state (orac : PivotOracle) (p l : String)
    (hok : ∀ s r, orac s p l r = none) :
    ∀ (rids : List String) (st : PivotState),
      (InsertPivotM2M orac st p l rids).state = st ++ rids.map (fun r => (p, l, r)) := by
  intro rids
  induction rids with
  | nil => intro st; simp [InsertPivotM2M]
  | cons r rest ih =>
    intro st
    simp only [InsertPivotM2M, hok st r]
    rw [ih (st ++ [(p, l, r)])]
    simp

theorem filter_edges_all (p l : String) (rids : List String) :
    (rids.map (fun r => (p, l, r))).filter (fun e => e.1 == p && e.2.1 == l)
      = rids.map (fun r => (p, l, r)) := by
  induction rids with
  | nil => rfl
  | cons r rest ih => simp [ih]

theorem filter_edges_none (p l : String) (rids : List String) :
    (rids.map (fun r => (p, l, r))).filter (fun e => !(e.1 == p && e.2.1 == l)) = [] := by
  induction rids with
  | nil => rfl
  | cons r rest ih => simp [ih]

theorem filter_self_filter {α : Type} (q : α → Bool) (l : List α) :
    (l.filter q).filter q = l.filter q := by
  induction l with
  | nil => rfl
  | cons e tl ih =>
    by_cases h : q e = true
    · rw [List.filter_cons_of_pos h, List.filter_cons_of_pos h, ih]
    · rw [List.filter_cons_of_neg h, ih]

theorem filter_not_filter {α : Type} (q : α → Bool) (l : List α) :
    (l.filter (fun a => !q a)).filter q = [] := by
  induction l with
  | nil => rfl
  | cons e tl ih =>
    by_cases h : q e = true
    · rw [List.filter_cons_of_neg (by simp [h]), ih]
    · rw [List.filter_cons_of_pos (by simp [h]), List.filter_cons_of_neg (by simpa using h), ih]

theorem clearPivot_clearPivot (st : PivotState) (p l : String) :
    ClearPivot (ClearPivot st p l) p l = ClearPivot st p l := by
  simp only [ClearPivot]
  exact filter_self_filter (fun e => !(e.1 == p && e.2.1 == l)) st

theorem clearPivot_filter_matching (st : PivotState) (p l : String) :
    (ClearPivot st p l).filter (fun e => e.1 == p && e.2.1 == l) = [] := by
  simp only [ClearPivot]
  exact filter_not_filter (fun e => e.1 == p && e.2.1 == l) st

/-- C9: for every pivot table, left id and duplicate-free right-id set,
running `ClearPivot` then `InsertPivotM2M` twice leaves the same store
as running it once, and the edges of that pivot table for that left id
are exactly one `(left_id, right_id)` row per right-id, without
duplicates. -/
theorem c9_clear_insert_idempotent (orac : PivotOracle) (st : PivotState)
    (p l : String) (rids : List String)
    (hok : ∀ s r, orac s p l r = none) (hnd : rids.Nodup) :
    clearInsert orac (clearInsert orac st p l rids) p l rids = clearInsert orac st p l rids
    ∧ (clearInsert orac st p l rids).filter (fun e => e.1 == p && e.2.1 == l)
        = rids.map (fun r => (p, l, r))
    ∧ ((clearInsert orac st p l rids).filter (fun e => e.1 == p && e.2.1 == l)).Nodup := by
  have hstate : ∀ s : PivotState,
      clearInsert orac s p l rids = ClearPivot s p l ++ rids.map (fun r => (p, l, r)) :=
    fun s => insertAllOk_state orac p l hok rids (ClearPivot s p l)
  have hclear1 : ClearPivot (clearInsert orac st p l rids) p l = ClearPivot st p l := by
    rw [hstate st, ClearPivot, List.filter_append]
    have h1 : (ClearPivot st p l).filter (fun e => !(e.1 == p && e.2.1 == l))
        = ClearPivot st p l := clearPivot_clearPivot st p l
    rw [h1, filter_edges_none]
    simp
  have hfilter : (clearInsert orac st p l rids).filter (fun e => e.1 == p && e.2.1 == l)
      = rids.map (fun r => (p, l, r)) := by
    rw [hstate st, List.filter_append, clearPivot_filter_matching, filter_edges_all]
    simp
  refine ⟨?_, hfilter, ?_⟩
  · rw [hstate (clearInsert orac st p l rids), hclear1, hstate st]
  · rw [hfilter]
    exact hnd.map (fun a b h => congrArg (fun x : String × String × String => x.2.2) h)

/-- Witness for C9 at a concrete store, oracle and right-id set. -/
theorem c9_clear_insert_idempotent_witness :
    clearInsert (fun _ _ _ _ => none)
        (clearInsert (fun _ _ _ _ => none) [("q", "a", "r0"), ("z", "b", "s")] "q" "a"
          ["r1", "r2"]) "q" "a" ["r1", "r2"]
      = clearInsert (fun _ _ _ _ => none) [("q", "a", "r0"), ("z", "b", "s")] "q" "a"
          ["r1", "r2"]
    ∧ (clearInsert (fun _ _ _ _ => none) [("q", "a", "r0"), ("z", "b", "s")] "q" "a"
        ["r1", "r2"]).filter (fun e => e.1 == "q" && e.2.1 == "a")
      = ["r1", "r2"].map (fun r => ("q", "a", r))
    ∧ ((clearInsert (fun _ _ _ _ => none) [("q", "a", "r0"), ("z", "b", "s")] "q" "a"
        ["r1", "r2"]).filter (fun e => e.1 == "q" && e.2.1 == "a")).Nodup :=
  c9_clear_insert_idempotent (fun _ _ _ _ => none) [("q", "a", "r0"), ("z", "b", "s")]
    "q" "a" ["r1", "r2"] (fun _ _ => rfl) (by decide)

/-- Witness for the amended C2 at concrete inputs. -/
theorem c2_amended_bound_parameters_witness :
    (mkBatchQuery "t" ["1", "2"]).text = (mkBatchQuery "t" ["8", "9"]).text
    ∧ queryTexts (InsertDynamic "t" [("name", Value.vstr "x")])
        = queryTexts (InsertDynamic "t" [("name", Value.vstr "y")])
    ∧ queryTexts (UpdateDynamic "t" "1" [("name", Value.vstr "x")])
        = queryTexts (UpdateDynamic "t" "2" [("name", Value.vstr "y")])
    ∧ (insertPivotQueries "pt" "L" ["1", "2"]).map (fun q => q.text)
        = (insertPivotQueries "pt" "M" ["8", "9"]).map (fun q => q.text) :=
  ⟨c2_amended_bound_parameters.1 "t" ["1", "2"] ["8", "9"] rfl,
   c2_amended_bound_parameters.2.2.1 "t" [("name", Value.vstr "x")] [("name", Value.vstr "y")] rfl,
   c2_amended_bound_parameters.2.2.2.1 "t" "1" "2" [("name", Value.vstr "x")]
     [("name", Value.vstr "y")] rfl,
   c2_amended_bound_parameters.2.2.2.2.1 "pt" "L" "M" ["1", "2"] ["8", "9"] rfl⟩
